import Mathlib

/-!
Shallow embedding of src/sic-watcher.c, a single-directory watcher that
streams the paths of newly appearing regular files.

C strings are modelled as List Char, the global seen-inode array as a
List Nat whose head is array index 0 (the oldest entry), stdout as the
list of reported directory entries (the byte records are derived from
them), and the OS as an explicit oracle (SysModel) giving the outcome of
each system call the program makes.
-/

set_option maxRecDepth 8192

namespace SicWatcher

/-- Capacity of the seen-set: define MAX_SEEN 4096. -/
def MAX_SEEN : Nat := 4096

/-- Inode numbers (ino_t). -/
abbrev Ino := Nat

/-- Outcome of a successful stat call on an entry: the inode number st_ino
and whether S_ISREG(st.st_mode) holds. -/
structure Stat where
  st_ino : Ino
  isReg : Bool
  deriving DecidableEq

/-- A directory entry as returned by readdir, paired with the outcome of the
stat performed on its full path during the scan: none models stat failing
because the entry vanished between listing and lookup. -/
structure DirEnt where
  d_name : List Char
  statResult : Option Stat
  deriving DecidableEq

/-- The test entry-d_name[0] == a dot character; an empty name has a NUL
first byte and is not hidden. -/
def hiddenName : List Char → Bool
  | [] => false
  | c :: _ => c == '.'

/-- is_seen: linear scan of the seen array for the inode. -/
def is_seen (seen : List Ino) (inode : Ino) : Bool :=
  seen.contains inode

/-- mark_seen: below capacity the inode is appended at index seen_count;
at capacity the memmove drops index 0 (the oldest entry), shifts the rest
down, and stores the inode at index MAX_SEEN - 1. -/
def mark_seen (seen : List Ino) (inode : Ino) : List Ino :=
  if seen.length < MAX_SEEN then seen ++ [inode]
  else seen.tail ++ [inode]

/-- snprintf(fullpath, PATH_MAX, s/s, dirpath, name); truncation at
PATH_MAX is not modelled. -/
def fullpath (dirpath name : List Char) : List Char :=
  dirpath ++ '/' :: name

/-- The readdir loop of scan_and_report: skip hidden names, skip entries
whose stat fails, skip non-regular files, and report-and-mark unseen
inodes. Returns the reported entries in directory-listing order together
with the updated seen set; the C function instead mutates the globals,
writes each path to stdout as it is found, and returns the count, which
here is the length of the first component. -/
def scan_and_report (seen : List Ino) : List DirEnt → List DirEnt × List Ino
  | [] => ([], seen)
  | e :: es =>
    if hiddenName e.d_name then scan_and_report seen es
    else
      match e.statResult with
      | none => scan_and_report seen es
      | some st =>
        if st.isReg then
          if is_seen seen st.st_ino then scan_and_report seen es
          else
            let r := scan_and_report (mark_seen seen st.st_ino) es
            (e :: r.1, r.2)
        else scan_and_report seen es

/-- scan_and_report including the opendir step: a listing of none models
opendir failing, in which case the function returns 0 immediately with no
output and no change to the seen set. The third component is the returned
found count. -/
def scan_and_report_dir (listing : Option (List DirEnt)) (seen : List Ino) :
    List DirEnt × List Ino × Nat :=
  match listing with
  | none => ([], seen, 0)
  | some es =>
    let r := scan_and_report seen es
    (r.1, r.2, r.1.length)

/-- Ghost instrumentation of scan_and_report: the list of (state, inode)
pairs at each call of mark_seen it performs, in order. -/
def scanMarks (seen : List Ino) : List DirEnt → List (List Ino × Ino)
  | [] => []
  | e :: es =>
    if hiddenName e.d_name then scanMarks seen es
    else
      match e.statResult with
      | none => scanMarks seen es
      | some st =>
        if st.isReg then
          if is_seen seen st.st_ino then scanMarks seen es
          else (seen, st.st_ino) :: scanMarks (mark_seen seen st.st_ino) es
        else scanMarks seen es

/-- The initial (seeding) scan block in main: same skipping of hidden
names, stat failures and non-regular files, but every surviving inode is
passed to mark_seen unconditionally and nothing is reported. -/
def initial_scan (seen : List Ino) : List DirEnt → List Ino
  | [] => seen
  | e :: es =>
    if hiddenName e.d_name then initial_scan seen es
    else
      match e.statResult with
      | some st =>
        if st.isReg then initial_scan (mark_seen seen st.st_ino) es
        else initial_scan seen es
      | none => initial_scan seen es

/-- Ghost instrumentation of the seeding scan: the (state, inode) pairs at
each call of mark_seen it performs, in order. -/
def initialMarks (seen : List Ino) : List DirEnt → List (List Ino × Ino)
  | [] => []
  | e :: es =>
    if hiddenName e.d_name then initialMarks seen es
    else
      match e.statResult with
      | some st =>
        if st.isReg then (seen, st.st_ino) :: initialMarks (mark_seen seen st.st_ino) es
        else initialMarks seen es
      | none => initialMarks seen es

/-- The record separator: fputc of NUL under -0, of a newline otherwise. -/
def sepChar (null_term : Bool) : Char :=
  if null_term then Char.ofNat 0 else '\n'

/-- The bytes written to stdout for one reported entry: the full path
followed by exactly one separator character. -/
def record (dirpath : List Char) (null_term : Bool) (e : DirEnt) : List Char :=
  fullpath dirpath e.d_name ++ [sepChar null_term]

/-- The stdout records produced by a scan that reported the given entries,
in order. -/
def outputOf (dirpath : List Char) (null_term : Bool) (reported : List DirEnt) :
    List (List Char) :=
  reported.map (record dirpath null_term)

/-- The inode a reported entry was reported under (reported entries always
carry a successful stat). -/
def entIno (e : DirEnt) : Ino :=
  match e.statResult with
  | some st => st.st_ino
  | none => 0

/-- argv[i] strcmp-equal to the literal -0. -/
def flagZero : List Char := ['-', '0']

/-- argv[i][0] == the dash character; an empty argument has a NUL first
byte and does not start with a dash. -/
def startsDash : List Char → Bool
  | [] => false
  | c :: _ => c == '-'

/-- The argument loop of main: each argument is the -0 flag, an
unrecognized flag (usage: none), or a positional argument overwriting
dirpath; after the loop a missing dirpath is also usage. -/
def parseArgs : List (List Char) → Bool → Option (List Char) → Option (Bool × List Char)
  | [], _, none => none
  | [], null_term, some d => some (null_term, d)
  | a :: rest, null_term, d =>
    if a == flagZero then parseArgs rest true d
    else if startsDash a then none
    else parseArgs rest null_term (some a)

/-- An argument that triggers the usage branch: starts with a dash but is
not -0. -/
def isBadFlag (a : List Char) : Bool :=
  (!(a == flagZero)) && startsDash a

/-- An argument stored into dirpath: does not start with a dash. -/
def isPositional (a : List Char) : Bool :=
  !startsDash a

/-- Outcome of one pass of the kevent wait in the event loop. -/
inductive WaitResult where
  /-- n = 0: the one second timeout elapsed. -/
  | timeout
  /-- n < 0 with errno == EINTR: benign interruption, retried. -/
  | intr
  /-- n < 0 with errno other than EINTR: fatal wait error. -/
  | err
  /-- n > 0: the directory changed; the payload is what opendir/readdir
  then yields in scan_and_report, none meaning opendir fails. -/
  | changed (listing : Option (List DirEnt))
  deriving DecidableEq

/-- Result of running the main event loop. -/
structure LoopResult where
  reported : List DirEnt
  seen : List Ino
  fatal : Bool
  deriving DecidableEq

/-- The main event loop: the list of wait outcomes is the sequence of loop
iterations; exhausting it models g_running having been cleared by a
signal, ending the loop normally. A timeout or EINTR loops again; a fatal
wait error reports and breaks immediately; a change notification runs
scan_and_report (after the settle delay) and loops. -/
def watchLoop (seen : List Ino) : List WaitResult → LoopResult
  | [] => ⟨[], seen, false⟩
  | WaitResult.timeout :: rest => watchLoop seen rest
  | WaitResult.intr :: rest => watchLoop seen rest
  | WaitResult.err :: _ => ⟨[], seen, true⟩
  | WaitResult.changed listing :: rest =>
    let r := scan_and_report_dir listing seen
    let t := watchLoop r.2.1 rest
    ⟨r.1 ++ t.reported, t.seen, t.fatal⟩

/-- One-line diagnostics the program can print to stderr. -/
inductive ErrKind where
  /-- cannot open the directory at startup. -/
  | cannotOpen
  /-- kqueue creation failed. -/
  | kqueueFail
  /-- kevent registration failed. -/
  | keventRegFail
  /-- kevent wait failed with errno other than EINTR. -/
  | keventWait
  deriving DecidableEq

/-- Oracle for the system calls main makes, fixing one execution. -/
structure SysModel where
  /-- open(dirpath, O_RDONLY | O_DIRECTORY) succeeds. -/
  openDirOk : Bool
  /-- kqueue() succeeds. -/
  kqueueOk : Bool
  /-- the kevent registration succeeds. -/
  keventRegOk : Bool
  /-- what opendir/readdir yields in the seeding scan; none meaning
  opendir fails there (silently skipped). -/
  seedListing : Option (List DirEnt)
  /-- the successive outcomes of the kevent waits. -/
  events : List WaitResult
  deriving DecidableEq

/-- Observable outcome of one run of main. -/
structure MainResult where
  exitCode : Nat
  usageShown : Bool
  errMsgs : List ErrKind
  dirUsed : Option (List Char)
  reported : List DirEnt
  seenFinal : List Ino
  fatalLoopError : Bool
  closedKq : Bool
  closedDirfd : Bool
  deriving DecidableEq

/-- main: parse arguments (usage exits 1), open the directory (failure
exits 1), create the kqueue (failure closes dirfd and exits 1), register
the kevent (failure closes both and exits 1), run the seeding scan with
an empty seen set, run the event loop, then close the kqueue and the
directory descriptor and return 0 — also after a fatal wait error, which
only breaks the loop. -/
def main (args : List (List Char)) (sys : SysModel) : MainResult :=
  match parseArgs args false none with
  | none =>
    ⟨1, true, [], none, [], [], false, false, false⟩
  | some (_, dirpath) =>
    if !sys.openDirOk then
      ⟨1, false, [ErrKind.cannotOpen], some dirpath, [], [], false, false, false⟩
    else if !sys.kqueueOk then
      ⟨1, false, [ErrKind.kqueueFail], some dirpath, [], [], false, false, true⟩
    else if !sys.keventRegOk then
      ⟨1, false, [ErrKind.keventRegFail], some dirpath, [], [], false, true, true⟩
    else
      let seen0 :=
        match sys.seedListing with
        | none => []
        | some es => initial_scan [] es
      let lr := watchLoop seen0 sys.events
      ⟨0, false, if lr.fatal then [ErrKind.keventWait] else [], some dirpath,
        lr.reported, lr.seen, lr.fatal, true, true⟩

/-- A sequence of operations against the Identity Tracker: membership tests
(is_seen) and insertions (mark_seen). -/
inductive TrackOp where
  | contains (i : Ino)
  | insert (i : Ino)
  deriving DecidableEq

/-- Run a sequence of tracker operations; is_seen has no side effect, so
only the insertions change the state. -/
def runOps (s : List Ino) : List TrackOp → List Ino
  | [] => s
  | TrackOp.contains _ :: rest => runOps s rest
  | TrackOp.insert i :: rest => runOps (mark_seen s i) rest

/-- A run in which the kevent wait fails fatally on the first iteration. -/
def sysErr : SysModel := ⟨true, true, true, some [], [WaitResult.err]⟩

/-- Two directory entries that are hard links to the same file: distinct
names, the same inode. -/
def hardlinkA : DirEnt := ⟨['a'], some ⟨7, true⟩⟩

/-- Second hard link to the inode of hardlinkA. -/
def hardlinkB : DirEnt := ⟨['b'], some ⟨7, true⟩⟩

/-- An execution in which every system call succeeds and no events arrive. -/
def sysAllOk : SysModel := ⟨true, true, true, some [], []⟩

/-- The seen-set with which main enters the event loop: empty when the
opendir of the seeding scan fails, otherwise the result of the seeding
scan from an empty set. -/
def seedOf : Option (List DirEnt) → List Ino
  | none => []
  | some es => initial_scan [] es

/-- A short all-successful run reporting a single file. -/
def w1Sys : SysModel :=
  ⟨true, true, true, some [],
    [WaitResult.changed (some [⟨['f'], some ⟨5, true⟩⟩])]⟩

/-! The eviction counterexample: MAX_SEEN + 1 distinct regular files,
scanned twice. -/

/-- A regular file with inode n (name f) used in the eviction scenario. -/
def mkEnt (n : Nat) : DirEnt := ⟨['f'], some ⟨n, true⟩⟩

/-- The directory listing holding MAX_SEEN + 1 distinct regular files. -/
def c1Listing : List DirEnt := (List.range (MAX_SEEN + 1)).map mkEnt

/-- A session in which the directory is empty at startup and the same
MAX_SEEN + 1 files are scanned on two successive change notifications. -/
def c1Sys : SysModel :=
  ⟨true, true, true, some [],
    [WaitResult.changed (some c1Listing), WaitResult.changed (some c1Listing)]⟩

/-! Basic lemmas about the tracker. -/

theorem is_seen_iff {seen : List Ino} {i : Ino} : is_seen seen i = true ↔ i ∈ seen := by
  simp [is_seen]

theorem is_seen_false_iff {seen : List Ino} {i : Ino} : is_seen seen i = false ↔ i ∉ seen := by
  simp [is_seen]

theorem mark_seen_of_lt {seen : List Ino} (i : Ino) (h : seen.length < MAX_SEEN) :
    mark_seen seen i = seen ++ [i] := by
  simp [mark_seen, h]

theorem length_mark_seen (seen : List Ino) (i : Ino) :
    (mark_seen seen i).length =
      if seen.length < MAX_SEEN then seen.length + 1 else seen.length := by
  unfold mark_seen
  split
  · simp
  · rename_i h
    have hpos : 0 < seen.length := by
      have : MAX_SEEN ≤ seen.length := Nat.le_of_not_lt h
      have : 0 < MAX_SEEN := by decide
      omega
    simp [List.length_tail]
    omega

theorem length_le_mark_seen (seen : List Ino) (i : Ino) :
    seen.length ≤ (mark_seen seen i).length := by
  rw [length_mark_seen]
  split <;> omega

theorem mem_of_mem_mark_seen {seen : List Ino} {i x : Ino}
    (h : x ∈ mark_seen seen i) : x ∈ seen ∨ x = i := by
  unfold mark_seen at h
  split at h <;> rcases List.mem_append.1 h with h' | h'
  · exact Or.inl h'
  · exact Or.inr (List.mem_singleton.1 h')
  · exact Or.inl (List.mem_of_mem_tail h')
  · exact Or.inr (List.mem_singleton.1 h')

theorem mark_seen_nodup {seen : List Ino} {i : Ino}
    (h : seen.Nodup) (hi : i ∉ seen) : (mark_seen seen i).Nodup := by
  unfold mark_seen
  split
  · refine List.Nodup.append h (List.nodup_singleton i) ?_
    intro a ha hb
    rw [List.mem_singleton.1 hb] at ha
    exact hi ha
  · refine List.Nodup.append (h.sublist (List.tail_sublist seen)) (List.nodup_singleton i) ?_
    intro a ha hb
    exact hi (List.mem_singleton.1 hb ▸ List.mem_of_mem_tail ha)

theorem length_runOps_le (ops : List TrackOp) :
    ∀ s : List Ino, s.length ≤ MAX_SEEN → (runOps s ops).length ≤ MAX_SEEN := by
  induction ops with
  | nil => intro s h; exact h
  | cons op rest ih =>
    intro s h
    cases op with
    | contains i => exact ih s h
    | insert i =>
      refine ih (mark_seen s i) ?_
      rw [length_mark_seen]
      split <;> omega

/-- Claim C5: for every sequence of contains/insert operations on the
Identity Tracker, starting empty, the entry count is at most
K = MAX_SEEN = 4096 after every operation — in particular after observing
more than K distinct identities. -/
theorem C5_size_never_exceeds_capacity (ops : List TrackOp) :
    (runOps [] ops).length ≤ MAX_SEEN := by
  exact length_runOps_le ops [] (by simp)

/-- Claim C6: when the seen-set holds exactly K = MAX_SEEN entries,
mark_seen evicts the single oldest-inserted entry (the head, in FIFO
order) and appends the new inode, so the result is the remaining K - 1
entries in their insertion order followed by the new inode, and the size
is unchanged at K. -/
theorem C6_insert_at_capacity_fifo (seen : List Ino) (i : Ino)
    (h : seen.length = MAX_SEEN) :
    mark_seen seen i = seen.tail ++ [i] ∧
    (mark_seen seen i).length = MAX_SEEN ∧
    seen.tail.length = MAX_SEEN - 1 ∧
    (∀ x ∈ seen.tail, x ∈ mark_seen seen i) ∧ i ∈ mark_seen seen i := by
  have hnotlt : ¬ seen.length < MAX_SEEN := by omega
  refine ⟨by simp [mark_seen, hnotlt], ?_, ?_, ?_, ?_⟩
  · rw [length_mark_seen]; simp [hnotlt, h]
  · simp [List.length_tail, h]
  · intro x hx
    simp [mark_seen, hnotlt]
    exact Or.inl hx
  · simp [mark_seen, hnotlt]

/-- Witness for C6 at a concrete full seen-set. -/
theorem C6_insert_at_capacity_fifo_witness :
    (List.range MAX_SEEN).length = MAX_SEEN ∧
    mark_seen (List.range MAX_SEEN) 9999 = (List.range MAX_SEEN).tail ++ [9999] := by
  refine ⟨List.length_range MAX_SEEN, ?_⟩
  exact (C6_insert_at_capacity_fifo (List.range MAX_SEEN) 9999
    (List.length_range MAX_SEEN)).1

/-- Claim C7: every emitted record is the reported file's full path
followed by exactly one separator character: a null byte (and no trailing
newline) when the -0 flag is in effect, a newline otherwise. -/
theorem C7_separator_correct (dirpath : List Char) (null_term : Bool)
    (reported : List DirEnt) (r : List Char) (h : r ∈ outputOf dirpath null_term reported) :
    (∃ e ∈ reported, r = fullpath dirpath e.d_name ++ [sepChar null_term]) ∧
    (null_term = true → r.getLast? = some (Char.ofNat 0) ∧ ¬ r.getLast? = some '\n') ∧
    (null_term = false → r.getLast? = some '\n') := by
  obtain ⟨e, he, hr⟩ := List.mem_map.1 h
  have hlast : r.getLast? = some (sepChar null_term) := by
    rw [← hr]
    exact List.getLast?_concat _
  refine ⟨⟨e, he, hr.symm⟩, ?_, ?_⟩
  · intro hnt
    rw [hlast]
    subst hnt
    refine ⟨rfl, ?_⟩
    intro hcontra
    have : sepChar true = '\n' := by
      simpa using hcontra
    exact absurd this (by decide)
  · intro hnt
    rw [hlast]
    subst hnt
    rfl

/-- Witness for C7 on a one-entry report in -0 mode. -/
theorem C7_separator_correct_witness :
    (record ['d'] true ⟨['a'], some ⟨1, true⟩⟩ ∈
      outputOf ['d'] true [⟨['a'], some ⟨1, true⟩⟩]) ∧
    (record ['d'] true ⟨['a'], some ⟨1, true⟩⟩).getLast? = some (Char.ofNat 0) := by
  have hmem : record ['d'] true ⟨['a'], some ⟨1, true⟩⟩ ∈
      outputOf ['d'] true [⟨['a'], some ⟨1, true⟩⟩] := by
    simp [outputOf]
  exact ⟨hmem, ((C7_separator_correct ['d'] true [⟨['a'], some ⟨1, true⟩⟩] _ hmem).2.1 rfl).1⟩

/-! Structural lemmas about the reporting and seeding scans. -/

theorem scan_filter_hidden (es : List DirEnt) :
    ∀ seen, scan_and_report seen (es.filter (fun e => !hiddenName e.d_name)) =
      scan_and_report seen es := by
  induction es with
  | nil => intro seen; rfl
  | cons e es ih =>
    intro seen
    by_cases hh : hiddenName e.d_name = true
    · have hf : List.filter (fun e => !hiddenName e.d_name) (e :: es)
          = List.filter (fun e => !hiddenName e.d_name) es := by
        simp [List.filter_cons, hh]
      rw [hf, ih seen]
      simp [scan_and_report, hh]
    · have hh' : hiddenName e.d_name = false := by
        cases h : hiddenName e.d_name
        · rfl
        · exact absurd h hh
      have hf : List.filter (fun e => !hiddenName e.d_name) (e :: es)
          = e :: List.filter (fun e => !hiddenName e.d_name) es := by
        simp [List.filter_cons, hh']
      rw [hf]
      cases hst : e.statResult with
      | none => simp [scan_and_report, hh', hst, ih seen]
      | some st =>
        by_cases hreg : st.isReg = true
        · by_cases hs : is_seen seen st.st_ino = true
          · simp [scan_and_report, hh', hst, hreg, hs, ih seen]
          · have hs' : is_seen seen st.st_ino = false := by
              cases h : is_seen seen st.st_ino
              · rfl
              · exact absurd h hs
            simp [scan_and_report, hh', hst, hreg, hs', ih (mark_seen seen st.st_ino)]
        · have hreg' : st.isReg = false := by
            cases h : st.isReg
            · rfl
            · exact absurd h hreg
          simp [scan_and_report, hh', hst, hreg', ih seen]

theorem initial_scan_filter_hidden (es : List DirEnt) :
    ∀ seen, initial_scan seen (es.filter (fun e => !hiddenName e.d_name)) =
      initial_scan seen es := by
  induction es with
  | nil => intro seen; rfl
  | cons e es ih =>
    intro seen
    by_cases hh : hiddenName e.d_name = true
    · have hf : List.filter (fun e => !hiddenName e.d_name) (e :: es)
          = List.filter (fun e => !hiddenName e.d_name) es := by
        simp [List.filter_cons, hh]
      rw [hf, ih seen]
      simp [initial_scan, hh]
    · have hh' : hiddenName e.d_name = false := by
        cases h : hiddenName e.d_name
        · rfl
        · exact absurd h hh
      have hf : List.filter (fun e => !hiddenName e.d_name) (e :: es)
          = e :: List.filter (fun e => !hiddenName e.d_name) es := by
        simp [List.filter_cons, hh']
      rw [hf]
      cases hst : e.statResult with
      | none => simp [initial_scan, hh', hst, ih seen]
      | some st =>
        by_cases hreg : st.isReg = true
        · simp [initial_scan, hh', hst, hreg, ih (mark_seen seen st.st_ino)]
        · have hreg' : st.isReg = false := by
            cases h : st.isReg
            · rfl
            · exact absurd h hreg
          simp [initial_scan, hh', hst, hreg', ih seen]

theorem scan_filter_stat (es : List DirEnt) :
    ∀ seen, scan_and_report seen (es.filter (fun e => e.statResult.isSome)) =
      scan_and_report seen es := by
  induction es with
  | nil => intro seen; rfl
  | cons e es ih =>
    intro seen
    cases hst : e.statResult with
    | none =>
      have hf : List.filter (fun e => e.statResult.isSome) (e :: es)
          = List.filter (fun e => e.statResult.isSome) es := by
        simp [List.filter_cons, hst]
      rw [hf, ih seen]
      by_cases hh : hiddenName e.d_name = true
      · simp [scan_and_report, hh]
      · have hh' : hiddenName e.d_name = false := by
          cases h : hiddenName e.d_name
          · rfl
          · exact absurd h hh
        simp [scan_and_report, hh', hst]
    | some st =>
      have hf : List.filter (fun e => e.statResult.isSome) (e :: es)
          = e :: List.filter (fun e => e.statResult.isSome) es := by
        simp [List.filter_cons, hst]
      rw [hf]
      by_cases hh : hiddenName e.d_name = true
      · simp [scan_and_report, hh, ih seen]
      · have hh' : hiddenName e.d_name = false := by
          cases h : hiddenName e.d_name
          · rfl
          · exact absurd h hh
        by_cases hreg : st.isReg = true
        · by_cases hs : is_seen seen st.st_ino = true
          · simp [scan_and_report, hh', hst, hreg, hs, ih seen]
          · have hs' : is_seen seen st.st_ino = false := by
              cases h : is_seen seen st.st_ino
              · rfl
              · exact absurd h hs
            simp [scan_and_report, hh', hst, hreg, hs', ih (mark_seen seen st.st_ino)]
        · have hreg' : st.isReg = false := by
            cases h : st.isReg
            · rfl
            · exact absurd h hreg
          simp [scan_and_report, hh', hst, hreg', ih seen]

theorem scan_reported_shape (es : List DirEnt) :
    ∀ seen, ∀ e ∈ (scan_and_report seen es).1,
      hiddenName e.d_name = false ∧ ∃ st, e.statResult = some st ∧ st.isReg = true := by
  induction es with
  | nil => intro seen e he; simp [scan_and_report] at he
  | cons e0 es ih =>
    intro seen e he
    by_cases hh : hiddenName e0.d_name = true
    · rw [show scan_and_report seen (e0 :: es) = scan_and_report seen es by
        simp [scan_and_report, hh]] at he
      exact ih seen e he
    · have hh' : hiddenName e0.d_name = false := by
        cases h : hiddenName e0.d_name
        · rfl
        · exact absurd h hh
      cases hst : e0.statResult with
      | none =>
        rw [show scan_and_report seen (e0 :: es) = scan_and_report seen es by
          simp [scan_and_report, hh', hst]] at he
        exact ih seen e he
      | some st =>
        by_cases hreg : st.isReg = true
        · by_cases hs : is_seen seen st.st_ino = true
          · rw [show scan_and_report seen (e0 :: es) = scan_and_report seen es by
              simp [scan_and_report, hh', hst, hreg, hs]] at he
            exact ih seen e he
          · have hs' : is_seen seen st.st_ino = false := by
              cases h : is_seen seen st.st_ino
              · rfl
              · exact absurd h hs
            rw [show scan_and_report seen (e0 :: es) =
                (e0 :: (scan_and_report (mark_seen seen st.st_ino) es).1,
                 (scan_and_report (mark_seen seen st.st_ino) es).2) by
              simp [scan_and_report, hh', hst, hreg, hs']] at he
            rcases List.mem_cons.1 he with h' | h'
            · subst h'
              exact ⟨hh', st, hst, hreg⟩
            · exact ih (mark_seen seen st.st_ino) e h'
        · have hreg' : st.isReg = false := by
            cases h : st.isReg
            · rfl
            · exact absurd h hreg
          rw [show scan_and_report seen (e0 :: es) = scan_and_report seen es by
            simp [scan_and_report, hh', hst, hreg']] at he
          exact ih seen e he

/-- Claim C8: entries whose name begins with a dot have no effect on any
scan — removing them from a listing changes neither the result of the
reporting scan nor the result of the seeding scan — and no reported entry
is hidden, regardless of the entry's type. -/
theorem C8_hidden_never_reported (seen : List Ino) (es : List DirEnt) :
    scan_and_report seen (es.filter (fun e => !hiddenName e.d_name)) =
      scan_and_report seen es ∧
    initial_scan seen (es.filter (fun e => !hiddenName e.d_name)) =
      initial_scan seen es ∧
    ∀ e ∈ (scan_and_report seen es).1, hiddenName e.d_name = false := by
  exact ⟨scan_filter_hidden es seen, initial_scan_filter_hidden es seen,
    fun e he => (scan_reported_shape es seen e he).1⟩

/-- Claim C9: a scan reports an entry only if its stat succeeded and it is
a regular file; entries whose stat fails are complete no-ops — removing
them from the listing changes nothing, so they produce no output, no
diagnostic and no tracker mutation — and non-regular entries are never
reported. -/
theorem C9_stat_failures_skipped (seen : List Ino) (es : List DirEnt) :
    scan_and_report seen (es.filter (fun e => e.statResult.isSome)) =
      scan_and_report seen es ∧
    ∀ e ∈ (scan_and_report seen es).1, ∃ st, e.statResult = some st ∧ st.isReg = true := by
  exact ⟨scan_filter_stat es seen, fun e he => (scan_reported_shape es seen e he).2⟩

/-- Claim C10: an opendir failure during a reporting scan emits no output,
mutates no tracker state and returns a found count of zero; the event
loop treats the corresponding change notification as a no-op and keeps
waiting, while a failure to open the directory at startup exits 1 with a
diagnostic before any watching. -/
theorem C10_scan_opendir_failure_nonfatal (seen : List Ino) (rest : List WaitResult)
    (args : List (List Char)) (sys : SysModel) (nt : Bool) (d : List Char)
    (hp : parseArgs args false none = some (nt, d)) (ho : sys.openDirOk = false) :
    scan_and_report_dir none seen = ([], seen, 0) ∧
    watchLoop seen (WaitResult.changed none :: rest) = watchLoop seen rest ∧
    (main args sys).exitCode = 1 ∧
    (main args sys).reported = [] ∧
    (main args sys).errMsgs = [ErrKind.cannotOpen] := by
  refine ⟨rfl, rfl, ?_⟩
  simp [main, hp, ho]

/-- Witness for C10 at a concrete invocation whose startup open fails. -/
theorem C10_scan_opendir_failure_nonfatal_witness :
    parseArgs [['d']] false none = some (false, ['d']) ∧
    (⟨false, true, true, some [], []⟩ : SysModel).openDirOk = false ∧
    watchLoop [3] [WaitResult.changed none] = watchLoop [3] [] ∧
    (main [['d']] ⟨false, true, true, some [], []⟩).exitCode = 1 := by
  refine ⟨rfl, rfl, ?_, ?_⟩
  · exact (C10_scan_opendir_failure_nonfatal [3] [] [['d']]
      ⟨false, true, true, some [], []⟩ false ['d'] rfl rfl).2.1
  · exact (C10_scan_opendir_failure_nonfatal [3] [] [['d']]
      ⟨false, true, true, some [], []⟩ false ['d'] rfl rfl).2.2.1

/-- Claim C2 counterexample: with a fatal wait error the diagnostic is
printed and both handles are closed, but the process exits with status 0,
not the non-zero status the claim requires. -/
theorem C2_counterexample :
    (main [['d']] sysErr).fatalLoopError = true ∧
    (main [['d']] sysErr).errMsgs = [ErrKind.keventWait] ∧
    (main [['d']] sysErr).closedKq = true ∧
    (main [['d']] sysErr).closedDirfd = true ∧
    (main [['d']] sysErr).exitCode = 0 :=
  ⟨rfl, rfl, rfl, rfl, rfl⟩

/-- Claim C2 (amended): if the wait-for-notification primitive fails for a
reason other than interruption by a signal, the watch loop terminates
immediately (the remaining wait outcomes are never examined), the error
is reported on the error stream, the kqueue and the directory handle are
released — and the process exits with status 0. -/
theorem C2_fatal_wait_error (s : List Ino) (rest : List WaitResult)
    (args : List (List Char)) (sys : SysModel)
    (h : (main args sys).fatalLoopError = true) :
    watchLoop s (WaitResult.err :: rest) = ⟨[], s, true⟩ ∧
    (main args sys).errMsgs = [ErrKind.keventWait] ∧
    (main args sys).closedKq = true ∧
    (main args sys).closedDirfd = true ∧
    (main args sys).exitCode = 0 := by
  refine ⟨rfl, ?_⟩
  cases hp : parseArgs args false none with
  | none =>
    exfalso
    rw [show (main args sys).fatalLoopError = false by simp [main, hp]] at h
    exact Bool.false_ne_true h
  | some p =>
    obtain ⟨nt, d⟩ := p
    by_cases ho : sys.openDirOk = true
    · by_cases hk : sys.kqueueOk = true
      · by_cases hr : sys.keventRegOk = true
        · have hfatal : (watchLoop
              (match sys.seedListing with
               | none => []
               | some es => initial_scan [] es) sys.events).fatal = true := by
            have := h
            simp only [main, hp, ho, hk, hr] at this
            simpa using this
          simp [main, hp, ho, hk, hr, hfatal]
        · exfalso
          rw [show (main args sys).fatalLoopError = false by
            simp [main, hp, ho, hk, hr]] at h
          exact Bool.false_ne_true h
      · exfalso
        rw [show (main args sys).fatalLoopError = false by
          simp [main, hp, ho, hk]] at h
        exact Bool.false_ne_true h
    · exfalso
      rw [show (main args sys).fatalLoopError = false by
        simp [main, hp, ho]] at h
      exact Bool.false_ne_true h

/-- Witness for C2 (amended) at a concrete fatal-wait run. -/
theorem C2_fatal_wait_error_witness :
    (main [['w']] ⟨true, true, true, some [], [WaitResult.err]⟩).fatalLoopError = true ∧
    watchLoop [] [WaitResult.err] = ⟨[], [], true⟩ ∧
    (main [['w']] ⟨true, true, true, some [], [WaitResult.err]⟩).exitCode = 0 := by
  refine ⟨rfl, ?_, ?_⟩
  · exact (C2_fatal_wait_error [] [] [['w']]
      ⟨true, true, true, some [], [WaitResult.err]⟩ rfl).1
  · exact (C2_fatal_wait_error [] [] [['w']]
      ⟨true, true, true, some [], [WaitResult.err]⟩ rfl).2.2.2.2

/-- Claim C3 counterexample: in the seeding scan, mark_seen is invoked on
inode 7 a second time although is_seen already returns true for it, and
the resulting seen-set holds a duplicate entry consuming capacity. -/
theorem C3_counterexample :
    initialMarks [] [hardlinkA, hardlinkB] = [([], 7), ([7], 7)] ∧
    is_seen [7] 7 = true ∧
    initial_scan [] [hardlinkA, hardlinkB] = [7, 7] ∧
    ¬ (initial_scan [] [hardlinkA, hardlinkB]).Nodup := by
  exact ⟨rfl, rfl, rfl, by decide⟩

theorem scanMarks_fresh (es : List DirEnt) :
    ∀ seen, ∀ p ∈ scanMarks seen es, is_seen p.1 p.2 = false := by
  induction es with
  | nil => intro seen p hp; simp [scanMarks] at hp
  | cons e es ih =>
    intro seen p hp
    by_cases hh : hiddenName e.d_name = true
    · rw [show scanMarks seen (e :: es) = scanMarks seen es by
        simp [scanMarks, hh]] at hp
      exact ih seen p hp
    · have hh' : hiddenName e.d_name = false := by
        cases h : hiddenName e.d_name
        · rfl
        · exact absurd h hh
      cases hst : e.statResult with
      | none =>
        rw [show scanMarks seen (e :: es) = scanMarks seen es by
          simp [scanMarks, hh', hst]] at hp
        exact ih seen p hp
      | some st =>
        by_cases hreg : st.isReg = true
        · by_cases hs : is_seen seen st.st_ino = true
          · rw [show scanMarks seen (e :: es) = scanMarks seen es by
              simp [scanMarks, hh', hst, hreg, hs]] at hp
            exact ih seen p hp
          · have hs' : is_seen seen st.st_ino = false := by
              cases h : is_seen seen st.st_ino
              · rfl
              · exact absurd h hs
            rw [show scanMarks seen (e :: es) =
                (seen, st.st_ino) :: scanMarks (mark_seen seen st.st_ino) es by
              simp [scanMarks, hh', hst, hreg, hs']] at hp
            rcases List.mem_cons.1 hp with h' | h'
            · rw [h']
              exact hs'
            · exact ih (mark_seen seen st.st_ino) p h'
        · have hreg' : st.isReg = false := by
            cases h : st.isReg
            · rfl
            · exact absurd h hreg
          rw [show scanMarks seen (e :: es) = scanMarks seen es by
            simp [scanMarks, hh', hst, hreg']] at hp
          exact ih seen p hp

theorem scan_preserves_nodup (es : List DirEnt) :
    ∀ seen, seen.Nodup → ((scan_and_report seen es).2).Nodup := by
  induction es with
  | nil => intro seen h; exact h
  | cons e es ih =>
    intro seen h
    by_cases hh : hiddenName e.d_name = true
    · rw [show scan_and_report seen (e :: es) = scan_and_report seen es by
        simp [scan_and_report, hh]]
      exact ih seen h
    · have hh' : hiddenName e.d_name = false := by
        cases hx : hiddenName e.d_name
        · rfl
        · exact absurd hx hh
      cases hst : e.statResult with
      | none =>
        rw [show scan_and_report seen (e :: es) = scan_and_report seen es by
          simp [scan_and_report, hh', hst]]
        exact ih seen h
      | some st =>
        by_cases hreg : st.isReg = true
        · by_cases hs : is_seen seen st.st_ino = true
          · rw [show scan_and_report seen (e :: es) = scan_and_report seen es by
              simp [scan_and_report, hh', hst, hreg, hs]]
            exact ih seen h
          · have hs' : is_seen seen st.st_ino = false := by
              cases hx : is_seen seen st.st_ino
              · rfl
              · exact absurd hx hs
            rw [show scan_and_report seen (e :: es) =
                (e :: (scan_and_report (mark_seen seen st.st_ino) es).1,
                 (scan_and_report (mark_seen seen st.st_ino) es).2) by
              simp [scan_and_report, hh', hst, hreg, hs']]
            exact ih (mark_seen seen st.st_ino)
              (mark_seen_nodup h (is_seen_false_iff.1 hs'))
        · have hreg' : st.isReg = false := by
            cases hx : st.isReg
            · rfl
            · exact absurd hx hreg
          rw [show scan_and_report seen (e :: es) = scan_and_report seen es by
            simp [scan_and_report, hh', hst, hreg']]
          exact ih seen h

/-- Claim C3 (amended): in every reporting scan, mark_seen is invoked only
on inodes for which is_seen returns false immediately beforehand, so a
reporting scan never creates duplicate entries; the seeding scan, by
contrast, inserts unconditionally, so a listing that carries the same
inode twice (hard links) leaves duplicate entries consuming capacity. -/
theorem C3_reporting_scan_checks_contains (seen : List Ino) (es : List DirEnt)
    (h : seen.Nodup) :
    (∀ p ∈ scanMarks seen es, is_seen p.1 p.2 = false) ∧
    ((scan_and_report seen es).2).Nodup := by
  exact ⟨scanMarks_fresh es seen, scan_preserves_nodup es seen h⟩

/-- Witness for C3 (amended) on a concrete scan from a nodup seen-set. -/
theorem C3_reporting_scan_checks_contains_witness :
    ([3] : List Ino).Nodup ∧
    ((scan_and_report [3] [hardlinkA, hardlinkB]).2).Nodup := by
  have h : ([3] : List Ino).Nodup := by decide
  exact ⟨h, (C3_reporting_scan_checks_contains [3] [hardlinkA, hardlinkB] h).2⟩

/-! Argument-parsing lemmas. -/

theorem getLast?_cons_or {α : Type} (a : α) (l : List α) :
    (a :: l).getLast? = (l.getLast?).or (some a) := by
  induction l generalizing a with
  | nil => simp
  | cons b l ih =>
    rw [List.getLast?_cons_cons, ih b]
    cases hl : l.getLast? <;> simp [Option.or]

theorem parseArgs_eq_none_iff (args : List (List Char)) :
    ∀ (nt : Bool) (d : Option (List Char)),
    parseArgs args nt d = none ↔
      (∃ a ∈ args, isBadFlag a = true) ∨ (args.filter isPositional = [] ∧ d = none) := by
  induction args with
  | nil =>
    intro nt d
    cases d <;> simp [parseArgs]
  | cons a args ih =>
    intro nt d
    by_cases hf : a = flagZero
    · subst hf
      rw [show parseArgs (flagZero :: args) nt d = parseArgs args true d by
        simp [parseArgs]]
      rw [ih true d]
      have hbad : isBadFlag flagZero = false := by decide
      have hpos : isPositional flagZero = false := by decide
      simp [List.filter_cons, hpos, hbad]
    · have hne : (a == flagZero) = false := beq_eq_false_iff_ne.2 hf
      by_cases hd : startsDash a = true
      · have hbad : isBadFlag a = true := by
          simp [isBadFlag, hd, hne]
        rw [show parseArgs (a :: args) nt d = none by
          simp [parseArgs, hne, hd]]
        simp [hbad]
      · have hd' : startsDash a = false := by
          cases hx : startsDash a
          · rfl
          · exact absurd hx hd
        have hbad : isBadFlag a = false := by
          simp [isBadFlag, hd']
        have hpos : isPositional a = true := by
          simp [isPositional, hd']
        rw [show parseArgs (a :: args) nt d = parseArgs args nt (some a) by
          simp [parseArgs, hne, hd']]
        rw [ih nt (some a)]
        simp [List.filter_cons, hpos, hbad]

theorem parseArgs_no_bad (args : List (List Char)) :
    ∀ (nt : Bool) (d : Option (List Char)), (∀ a ∈ args, isBadFlag a = false) →
    parseArgs args nt d =
      match ((args.filter isPositional).getLast?).or d with
      | none => none
      | some p => some (nt || args.contains flagZero, p) := by
  induction args with
  | nil =>
    intro nt d _
    cases d <;> simp [parseArgs]
  | cons a args ih =>
    intro nt d hb
    have hbtail : ∀ a' ∈ args, isBadFlag a' = false :=
      fun a' ha' => hb a' (List.mem_cons_of_mem a ha')
    by_cases hf : a = flagZero
    · subst hf
      have hpos : isPositional flagZero = false := by decide
      rw [show parseArgs (flagZero :: args) nt d = parseArgs args true d by
        simp [parseArgs]]
      rw [ih true d hbtail]
      have hfil : (flagZero :: args).filter isPositional = args.filter isPositional := by
        simp [List.filter_cons, hpos]
      rw [hfil]
      have hcon : (flagZero :: args).contains flagZero = true := by
        simp [List.contains_cons]
      cases hsc : ((args.filter isPositional).getLast?).or d <;> simp [hcon]
    · have hne : (a == flagZero) = false := beq_eq_false_iff_ne.2 hf
      have hd' : startsDash a = false := by
        cases hx : startsDash a
        · rfl
        · exact absurd (by simp [isBadFlag, hx, hne] : isBadFlag a = true)
            (by simp [hb a (List.mem_cons_self a args)])
      have hpos : isPositional a = true := by
        simp [isPositional, hd']
      rw [show parseArgs (a :: args) nt d = parseArgs args nt (some a) by
        simp [parseArgs, hne, hd']]
      rw [ih nt (some a) hbtail]
      have hfil : (a :: args).filter isPositional = a :: args.filter isPositional := by
        simp [List.filter_cons, hpos]
      rw [hfil, getLast?_cons_or a (args.filter isPositional)]
      have hcon : (a :: args).contains flagZero = args.contains flagZero := by
        simp [List.contains_cons]
        exact fun h => absurd h.symm hf
      have hor : (((args.filter isPositional).getLast?).or (some a)).or d
          = ((args.filter isPositional).getLast?).or (some a) := by
        cases hsc : (args.filter isPositional).getLast? <;> simp [Option.or]
      rw [hor, hcon]

theorem main_after_parse (args : List (List Char)) (sys : SysModel) (nt : Bool)
    (d : List Char) (hp : parseArgs args false none = some (nt, d)) :
    (main args sys).usageShown = false ∧ (main args sys).dirUsed = some d := by
  obtain ⟨o, k, r, sl, ev⟩ := sys
  cases o <;> cases k <;> cases r <;> simp [main, hp]

theorem main_usage (args : List (List Char)) (sys : SysModel)
    (hp : parseArgs args false none = none) :
    main args sys = ⟨1, true, [], none, [], [], false, false, false⟩ := by
  simp [main, hp]

/-- Claim C4 counterexample: two positional arguments do not trigger the
usage error — parsing succeeds with the last positional argument as the
directory and the program enters watching, exiting 0. -/
theorem C4_counterexample :
    parseArgs [['a'], ['b']] false none = some (false, ['b']) ∧
    (main [['a'], ['b']] sysAllOk).usageShown = false ∧
    (main [['a'], ['b']] sysAllOk).exitCode = 0 ∧
    (main [['a'], ['b']] sysAllOk).dirUsed = some ['b'] :=
  ⟨rfl, rfl, rfl, rfl⟩

/-- Claim C4 (amended): the usage message and exit 1 occur exactly when no
positional argument is supplied or an unrecognized flag is present; when
several positional arguments are supplied the program still enters
watching, using the last positional argument as the directory. -/
theorem C4_usage_behavior (args : List (List Char)) (sys : SysModel) :
    ((main args sys).usageShown = true ↔
      ((∃ a ∈ args, isBadFlag a = true) ∨ args.filter isPositional = [])) ∧
    ((main args sys).usageShown = true →
      (main args sys).exitCode = 1 ∧ (main args sys).reported = [] ∧
      (main args sys).dirUsed = none) ∧
    (∀ p : List Char, (∀ a ∈ args, isBadFlag a = false) →
      (args.filter isPositional).getLast? = some p →
      (main args sys).usageShown = false ∧ (main args sys).dirUsed = some p) := by
  refine ⟨?_, ?_, ?_⟩
  · constructor
    · intro hu
      cases hp : parseArgs args false none with
      | none =>
        have := (parseArgs_eq_none_iff args false none).1 hp
        rcases this with h | h
        · exact Or.inl h
        · exact Or.inr h.1
      | some p =>
        obtain ⟨nt, d⟩ := p
        rw [(main_after_parse args sys nt d hp).1] at hu
        exact absurd hu Bool.false_ne_true
    · intro h
      have hp : parseArgs args false none = none := by
        refine (parseArgs_eq_none_iff args false none).2 ?_
        rcases h with h | h
        · exact Or.inl h
        · exact Or.inr ⟨h, rfl⟩
      rw [main_usage args sys hp]
  · intro hu
    cases hp : parseArgs args false none with
    | none => rw [main_usage args sys hp]; exact ⟨rfl, rfl, rfl⟩
    | some p =>
      obtain ⟨nt, d⟩ := p
      rw [(main_after_parse args sys nt d hp).1] at hu
      exact absurd hu Bool.false_ne_true
  · intro p hb hlast
    have hp : parseArgs args false none = some (false || args.contains flagZero, p) := by
      rw [parseArgs_no_bad args false none hb]
      simp [hlast, Option.or]
    exact main_after_parse args sys _ p hp

/-- Witness for C4 (amended) at a single-positional invocation. -/
theorem C4_usage_behavior_witness :
    (main [['x']] sysAllOk).usageShown = false ∧
    (main [['x']] sysAllOk).dirUsed = some ['x'] := by
  exact (C4_usage_behavior [['x']] sysAllOk).2.2 ['x'] (by decide) (by decide)

/-! The no-re-reporting analysis. -/

theorem scan_cons_cases (seen : List Ino) (e : DirEnt) (es : List DirEnt) :
    scan_and_report seen (e :: es) = scan_and_report seen es ∨
    (∃ st, e.statResult = some st ∧ hiddenName e.d_name = false ∧ st.isReg = true ∧
      is_seen seen st.st_ino = false ∧
      scan_and_report seen (e :: es) =
        (e :: (scan_and_report (mark_seen seen st.st_ino) es).1,
         (scan_and_report (mark_seen seen st.st_ino) es).2)) := by
  by_cases hh : hiddenName e.d_name = true
  · exact Or.inl (by simp [scan_and_report, hh])
  · have hh' : hiddenName e.d_name = false := by
      cases hx : hiddenName e.d_name
      · rfl
      · exact absurd hx hh
    cases hst : e.statResult with
    | none => exact Or.inl (by simp [scan_and_report, hh', hst])
    | some st =>
      by_cases hreg : st.isReg = true
      · by_cases hs : is_seen seen st.st_ino = true
        · exact Or.inl (by simp [scan_and_report, hh', hst, hreg, hs])
        · have hs' : is_seen seen st.st_ino = false := by
            cases hx : is_seen seen st.st_ino
            · rfl
            · exact absurd hx hs
          exact Or.inr ⟨st, rfl, hh', hreg, hs',
            by simp [scan_and_report, hh', hst, hreg, hs']⟩
      · have hreg' : st.isReg = false := by
          cases hx : st.isReg
          · rfl
          · exact absurd hx hreg
        exact Or.inl (by simp [scan_and_report, hh', hst, hreg'])

theorem scan_seen_mono (es : List DirEnt) :
    ∀ seen : List Ino, seen.length ≤ ((scan_and_report seen es).2).length := by
  induction es with
  | nil => intro seen; exact Nat.le_refl _
  | cons e es ih =>
    intro seen
    rcases scan_cons_cases seen e es with hc | ⟨st, _, _, _, _, hc⟩
    · rw [hc]; exact ih seen
    · rw [hc]
      exact Nat.le_trans (length_le_mark_seen seen st.st_ino)
        (ih (mark_seen seen st.st_ino))

theorem scan_no_evict (es : List DirEnt) :
    ∀ seen : List Ino, ((scan_and_report seen es).2).length < MAX_SEEN →
    ((((scan_and_report seen es).1).map entIno).Nodup ∧
     (∀ e ∈ (scan_and_report seen es).1,
       entIno e ∉ seen ∧ entIno e ∈ (scan_and_report seen es).2) ∧
     (∀ x ∈ seen, x ∈ (scan_and_report seen es).2)) := by
  induction es with
  | nil =>
    intro seen h
    refine ⟨List.nodup_nil, ?_, ?_⟩
    · intro e he
      simp [scan_and_report] at he
    · intro x hx
      simpa [scan_and_report] using hx
  | cons e es ih =>
    intro seen h
    rcases scan_cons_cases seen e es with hc | ⟨st, hst, hh, hreg, hs, hc⟩
    · rw [hc] at h ⊢
      exact ih seen h
    · rw [hc] at h ⊢
      simp only at h ⊢
      have hlen : (mark_seen seen st.st_ino).length < MAX_SEEN :=
        Nat.lt_of_le_of_lt (scan_seen_mono es (mark_seen seen st.st_ino)) h
      have hslt : seen.length < MAX_SEEN :=
        Nat.lt_of_le_of_lt (length_le_mark_seen seen st.st_ino) hlen
      have happ : mark_seen seen st.st_ino = seen ++ [st.st_ino] :=
        mark_seen_of_lt st.st_ino hslt
      obtain ⟨nd, h2, h3⟩ := ih (mark_seen seen st.st_ino) h
      have hino : entIno e = st.st_ino := by simp [entIno, hst]
      have hmem_mark : st.st_ino ∈ mark_seen seen st.st_ino := by
        rw [happ]; simp
      refine ⟨?_, ?_, ?_⟩
      · rw [List.map_cons, List.nodup_cons]
        refine ⟨?_, nd⟩
        intro hmem
        obtain ⟨e', he', hee⟩ := List.mem_map.1 hmem
        have := (h2 e' he').1
        rw [hee, hino] at this
        exact this hmem_mark
      · intro e0 he0
        rcases List.mem_cons.1 he0 with h' | h'
        · subst h'
          rw [hino]
          exact ⟨is_seen_false_iff.1 hs, h3 st.st_ino hmem_mark⟩
        · obtain ⟨hnot, hmem⟩ := h2 e0 h'
          refine ⟨?_, hmem⟩
          intro hcontra
          exact hnot (by rw [happ]; exact List.mem_append_left _ hcontra)
      · intro x hx
        exact h3 x (by rw [happ]; exact List.mem_append_left _ hx)

theorem loop_seen_mono (evs : List WaitResult) :
    ∀ seen : List Ino, seen.length ≤ ((watchLoop seen evs).seen).length := by
  induction evs with
  | nil => intro seen; exact Nat.le_refl _
  | cons ev evs ih =>
    intro seen
    cases ev with
    | timeout => exact ih seen
    | intr => exact ih seen
    | err => exact Nat.le_refl _
    | changed listing =>
      cases listing with
      | none => exact ih seen
      | some es =>
        show seen.length ≤ ((watchLoop ((scan_and_report seen es).2) evs).seen).length
        exact Nat.le_trans (scan_seen_mono es seen) (ih ((scan_and_report seen es).2))

theorem loop_no_evict (evs : List WaitResult) :
    ∀ seen : List Ino, ((watchLoop seen evs).seen).length < MAX_SEEN →
    ((((watchLoop seen evs).reported).map entIno).Nodup ∧
     (∀ e ∈ (watchLoop seen evs).reported,
       entIno e ∉ seen ∧ entIno e ∈ (watchLoop seen evs).seen) ∧
     (∀ x ∈ seen, x ∈ (watchLoop seen evs).seen)) := by
  induction evs with
  | nil =>
    intro seen h
    refine ⟨List.nodup_nil, ?_, fun x hx => hx⟩
    intro e he
    simp [watchLoop] at he
  | cons ev evs ih =>
    intro seen h
    cases ev with
    | timeout => exact ih seen h
    | intr => exact ih seen h
    | err =>
      refine ⟨List.nodup_nil, ?_, fun x hx => hx⟩
      intro e he
      simp [watchLoop] at he
    | changed listing =>
      cases listing with
      | none => exact ih seen h
      | some es =>
        have heq : watchLoop seen (WaitResult.changed (some es) :: evs) =
            ⟨(scan_and_report seen es).1 ++
              (watchLoop ((scan_and_report seen es).2) evs).reported,
             (watchLoop ((scan_and_report seen es).2) evs).seen,
             (watchLoop ((scan_and_report seen es).2) evs).fatal⟩ := rfl
        rw [heq] at h ⊢
        simp only at h ⊢
        have hs1 : ((scan_and_report seen es).2).length < MAX_SEEN :=
          Nat.lt_of_le_of_lt (loop_seen_mono evs ((scan_and_report seen es).2)) h
        obtain ⟨snd, sh2, sh3⟩ := scan_no_evict es seen hs1
        obtain ⟨lnd, lh2, lh3⟩ := ih ((scan_and_report seen es).2) h
        refine ⟨?_, ?_, ?_⟩
        · rw [List.map_append]
          rw [List.nodup_append]
          refine ⟨snd, lnd, ?_⟩
          intro x hx1 hx2
          obtain ⟨e1, he1, hee1⟩ := List.mem_map.1 hx1
          obtain ⟨e2, he2, hee2⟩ := List.mem_map.1 hx2
          have hin : x ∈ (scan_and_report seen es).2 := hee1 ▸ (sh2 e1 he1).2
          have hout : x ∉ (scan_and_report seen es).2 := hee2 ▸ (lh2 e2 he2).1
          exact hout hin
        · intro e0 he0
          rcases List.mem_append.1 he0 with h' | h'
          · obtain ⟨hnot, hmem⟩ := sh2 e0 h'
            exact ⟨hnot, lh3 _ hmem⟩
          · obtain ⟨hnot, hmem⟩ := lh2 e0 h'
            refine ⟨?_, hmem⟩
            intro hcontra
            exact hnot (sh3 _ hcontra)
        · intro x hx
          exact lh3 x (sh3 x hx)

theorem main_ok (args : List (List Char)) (nt : Bool) (d : List Char)
    (sl : Option (List DirEnt)) (ev : List WaitResult)
    (hp : parseArgs args false none = some (nt, d)) :
    main args ⟨true, true, true, sl, ev⟩ =
      ⟨0, false,
       (if (watchLoop (seedOf sl) ev).fatal then [ErrKind.keventWait] else []),
       some d, (watchLoop (seedOf sl) ev).reported, (watchLoop (seedOf sl) ev).seen,
       (watchLoop (seedOf sl) ev).fatal, true, true⟩ := by
  cases sl <;> simp [main, hp, seedOf]

/-- Claim C1 (amended): over a whole watch session, each distinct inode is
reported at most once provided the tracker never evicts — the run ends
with fewer than K = MAX_SEEN tracked entries; once more than K distinct
identities have been observed and eviction has occurred, an evicted
identity that is still present may be reported again. -/
theorem C1_no_rereport_without_eviction (args : List (List Char)) (sys : SysModel)
    (h : ((main args sys).seenFinal).length < MAX_SEEN) :
    ∀ i : Ino, (((main args sys).reported).map entIno).count i ≤ 1 := by
  intro i
  cases hp : parseArgs args false none with
  | none =>
    rw [main_usage args sys hp]
    simp
  | some p =>
    obtain ⟨nt, d⟩ := p
    obtain ⟨o, k, r, sl, ev⟩ := sys
    cases o with
    | false =>
      have : (main args ⟨false, k, r, sl, ev⟩).reported = [] := by
        simp [main, hp]
      rw [this]
      simp
    | true =>
      cases k with
      | false =>
        have : (main args ⟨true, false, r, sl, ev⟩).reported = [] := by
          simp [main, hp]
        rw [this]
        simp
      | true =>
        cases r with
        | false =>
          have : (main args ⟨true, true, false, sl, ev⟩).reported = [] := by
            simp [main, hp]
          rw [this]
          simp
        | true =>
          rw [main_ok args nt d sl ev hp] at h ⊢
          simp only at h ⊢
          have hnd := (loop_no_evict ev (seedOf sl) h).1
          exact List.nodup_iff_count_le_one.1 hnd i

/-- Witness for C1 (amended) on a session that reports one file. -/
theorem C1_no_rereport_without_eviction_witness :
    ((main [['d']] w1Sys).seenFinal).length < MAX_SEEN ∧
    (((main [['d']] w1Sys).reported).map entIno).count 5 ≤ 1 := by
  have h : ((main [['d']] w1Sys).seenFinal).length < MAX_SEEN := by decide
  exact ⟨h, C1_no_rereport_without_eviction [['d']] w1Sys h 5⟩

theorem scan_report_step (seen : List Ino) (e : DirEnt) (es : List DirEnt) (st : Stat)
    (hst : e.statResult = some st) (hh : hiddenName e.d_name = false)
    (hreg : st.isReg = true) (hs : is_seen seen st.st_ino = false) :
    scan_and_report seen (e :: es) =
      (e :: (scan_and_report (mark_seen seen st.st_ino) es).1,
       (scan_and_report (mark_seen seen st.st_ino) es).2) := by
  simp [scan_and_report, hh, hst, hreg, hs]

theorem scan_fresh (l : List Nat) :
    ∀ seen : List Ino, l.Nodup → (∀ j ∈ l, j ∉ seen) →
    scan_and_report seen (l.map mkEnt) = (l.map mkEnt, l.foldl mark_seen seen) := by
  induction l with
  | nil => intro seen _ _; rfl
  | cons i l ih =>
    intro seen hnd hfresh
    have hs : is_seen seen i = false :=
      is_seen_false_iff.2 (hfresh i (List.mem_cons_self i l))
    have hstep : scan_and_report seen (mkEnt i :: l.map mkEnt) =
        (mkEnt i :: (scan_and_report (mark_seen seen i) (l.map mkEnt)).1,
         (scan_and_report (mark_seen seen i) (l.map mkEnt)).2) := by
      simp [scan_and_report, mkEnt, hiddenName, hs]
    have hfresh' : ∀ j ∈ l, j ∉ mark_seen seen i := by
      intro j hj hmem
      rcases mem_of_mem_mark_seen hmem with h' | h'
      · exact hfresh j (List.mem_cons_of_mem i hj) h'
      · rw [h'] at hj
        exact (List.nodup_cons.1 hnd).1 hj
    rw [List.map_cons, hstep, ih (mark_seen seen i) (List.Nodup.of_cons hnd) hfresh',
      List.foldl_cons]

theorem foldl_mark_append (l : List Nat) :
    ∀ seen : List Ino, seen.length + l.length ≤ MAX_SEEN →
    l.foldl mark_seen seen = seen ++ l := by
  induction l with
  | nil => intro seen _; simp
  | cons i l ih =>
    intro seen h
    have hlen : seen.length + (l.length + 1) ≤ MAX_SEEN := by
      simpa using h
    have hlt : seen.length < MAX_SEEN := by omega
    rw [List.foldl_cons, mark_seen_of_lt i hlt, ih (seen ++ [i]) (by simp; omega)]
    simp

theorem seen_after_first_scan :
    (List.range (MAX_SEEN + 1)).foldl mark_seen [] =
      (List.range MAX_SEEN).tail ++ [MAX_SEEN] := by
  have h1 : List.range (MAX_SEEN + 1) = List.range MAX_SEEN ++ [MAX_SEEN] :=
    List.range_succ MAX_SEEN
  rw [h1, List.foldl_append]
  have h2 : (List.range MAX_SEEN).foldl mark_seen [] = List.range MAX_SEEN := by
    have := foldl_mark_append (List.range MAX_SEEN) [] (by simp)
    simpa using this
  rw [h2]
  have h3 : ¬ (List.range MAX_SEEN).length < MAX_SEEN := by simp
  simp [mark_seen, h3]

theorem zero_not_in_after_first_scan :
    (0 : Nat) ∉ (List.range MAX_SEEN).tail ++ [MAX_SEEN] := by
  intro hmem
  have h40 : MAX_SEEN - 1 + 1 = MAX_SEEN := by decide
  have hr : List.range MAX_SEEN = 0 :: (List.range (MAX_SEEN - 1)).map Nat.succ := by
    rw [← h40]
    exact List.range_succ_eq_map (MAX_SEEN - 1)
  rcases List.mem_append.1 hmem with h | h
  · rw [hr] at h
    simp only [List.tail_cons] at h
    obtain ⟨k, _, hk⟩ := List.mem_map.1 h
    exact Nat.succ_ne_zero k hk
  · have : (0 : Nat) = MAX_SEEN := List.mem_singleton.1 h
    exact absurd this (by decide)

theorem c1_scan1_eq : scan_and_report [] c1Listing =
    ((List.range (MAX_SEEN + 1)).map mkEnt,
     (List.range (MAX_SEEN + 1)).foldl mark_seen []) :=
  scan_fresh (List.range (MAX_SEEN + 1)) [] (List.nodup_range (MAX_SEEN + 1))
    (by simp)

theorem c1_seen_after_scan1 : (scan_and_report [] c1Listing).2 =
    (List.range MAX_SEEN).tail ++ [MAX_SEEN] := by
  conv_lhs => rw [c1_scan1_eq]
  rw [seen_after_first_scan]

theorem c1_rep1_eq : (scan_and_report [] c1Listing).1 = c1Listing := by
  conv_lhs => rw [c1_scan1_eq]
  show (List.range (MAX_SEEN + 1)).map mkEnt = c1Listing
  rfl

theorem watchLoop_two_changed (l1 l2 : List DirEnt) (seen : List Ino) :
    (watchLoop seen [WaitResult.changed (some l1), WaitResult.changed (some l2)]).reported =
      (scan_and_report seen l1).1 ++
      ((scan_and_report ((scan_and_report seen l1).2) l2).1 ++ []) := rfl

theorem c1_session_reported :
    (main [['d']] c1Sys).reported =
      (scan_and_report [] c1Listing).1 ++
      ((scan_and_report ((scan_and_report [] c1Listing).2) c1Listing).1 ++ []) := by
  show (main [['d']] (⟨true, true, true, some [],
      [WaitResult.changed (some c1Listing),
       WaitResult.changed (some c1Listing)]⟩ : SysModel)).reported = _
  rw [main_ok [['d']] false ['d'] (some [])
    [WaitResult.changed (some c1Listing), WaitResult.changed (some c1Listing)] rfl]
  show (watchLoop (seedOf (some []))
      [WaitResult.changed (some c1Listing), WaitResult.changed (some c1Listing)]).reported = _
  rw [show seedOf (some []) = [] from rfl]
  rw [watchLoop_two_changed c1Listing c1Listing []]

/-- Claim C1 counterexample: in a session over a directory holding
MAX_SEEN + 1 distinct regular files, scanned on two successive change
notifications, inode 0 is reported in the first scan, evicted when the
tracker overflows, and reported again in the second scan — so it is not
the case that each distinct identity is reported at most once. -/
theorem C1_counterexample :
    ¬ (∀ i : Ino, (((main [['d']] c1Sys).reported).map entIno).count i ≤ 1) := by
  intro hall
  have h0 := hall 0
  have hs0 : is_seen ((List.range MAX_SEEN).tail ++ [MAX_SEEN]) 0 = false :=
    is_seen_false_iff.2 zero_not_in_after_first_scan
  have hlist : c1Listing =
      mkEnt 0 :: ((List.range MAX_SEEN).map Nat.succ).map mkEnt := by
    show (List.range (MAX_SEEN + 1)).map mkEnt = _
    rw [List.range_succ_eq_map MAX_SEEN, List.map_cons]
  have hstep2 : (scan_and_report ((List.range MAX_SEEN).tail ++ [MAX_SEEN]) c1Listing).1 =
      mkEnt 0 ::
        (scan_and_report (mark_seen ((List.range MAX_SEEN).tail ++ [MAX_SEEN]) 0)
          (((List.range MAX_SEEN).map Nat.succ).map mkEnt)).1 := by
    rw [hlist]
    rw [scan_report_step ((List.range MAX_SEEN).tail ++ [MAX_SEEN]) (mkEnt 0)
      (((List.range MAX_SEEN).map Nat.succ).map mkEnt) ⟨0, true⟩ rfl (by decide) rfl hs0]
  have hmap1 : c1Listing.map entIno = List.range (MAX_SEEN + 1) := by
    show ((List.range (MAX_SEEN + 1)).map mkEnt).map entIno = _
    rw [List.map_map]
    have hfn : entIno ∘ mkEnt = id := funext fun n => rfl
    rw [hfn, List.map_id]
  have hc1 : 1 ≤ ((scan_and_report [] c1Listing).1.map entIno).count 0 := by
    rw [c1_rep1_eq, hmap1]
    have hmem : (0 : Nat) ∈ List.range (MAX_SEEN + 1) :=
      List.mem_range.2 (by decide)
    rw [← List.count_pos_iff] at hmem
    omega
  have hc2 : 1 ≤ ((scan_and_report ((scan_and_report [] c1Listing).2) c1Listing).1.map
      entIno).count 0 := by
    rw [c1_seen_after_scan1, hstep2, List.map_cons]
    have h00 : entIno (mkEnt 0) = 0 := rfl
    rw [h00, List.count_cons_self]
    omega
  rw [c1_session_reported, List.append_nil, List.map_append, List.count_append] at h0
  omega

/-- Witness for C8 on a hidden entry and a reported plain entry. -/
theorem C8_hidden_never_reported_witness :
    scan_and_report []
        (List.filter (fun e => !hiddenName e.d_name) [⟨['.', 'h'], some ⟨9, true⟩⟩]) =
      scan_and_report [] [⟨['.', 'h'], some ⟨9, true⟩⟩] ∧
    hiddenName hardlinkA.d_name = false := by
  refine ⟨(C8_hidden_never_reported [] [⟨['.', 'h'], some ⟨9, true⟩⟩]).1, ?_⟩
  exact (C8_hidden_never_reported [] [hardlinkA]).2.2 hardlinkA (by decide)

/-- Witness for C9 on a vanished entry and a reported regular entry. -/
theorem C9_stat_failures_skipped_witness :
    scan_and_report []
        (List.filter (fun e => e.statResult.isSome) [⟨['v'], (none : Option Stat)⟩]) =
      scan_and_report [] [⟨['v'], (none : Option Stat)⟩] ∧
    ∃ st, hardlinkA.statResult = some st ∧ st.isReg = true := by
  refine ⟨(C9_stat_failures_skipped [] [⟨['v'], (none : Option Stat)⟩]).1, ?_⟩
  exact (C9_stat_failures_skipped [] [hardlinkA]).2 hardlinkA (by decide)

end SicWatcher
